import Mathlib

/-!
Shallow embedding of the OP2 → MSC-Nastran-HDF5 conversion core found in
`op2_to_h5_gui.py` (namespace `OpGui` below) and `msc_h5_writer.py`
(namespace `MscW` below).

Modelling conventions:
  * 64-bit floats in the source are modelled as `Rat` wherever they are only
    copied around; the eigenvalue-summary derivation, which takes a real
    square root, is modelled over `Real`.
  * a pyNastran result object is modelled by `SrcResult`; an attribute that
    the code probes with `hasattr`/`getattr(..., None)` is an `Option` field
    (`none` = attribute absent or `None`).
  * a numpy 3-D array `data[step][entity][component]` is a
    `List (List (List Rat))`; out-of-range indexing — which raises
    `IndexError` in numpy — is modelled by `Option`-valued access (`at2`),
    and every fallible builder returns `Option`; `none` models an uncaught
    exception.
  * a Python dict of subcase → result, iterated with `sorted(dict)`, is
    modelled as a `List (Int × SrcResult)` holding the key-sorted items.
  * the index lists that the writers accumulate with a running `pos` counter
    are produced by `mkIndex`, which is the same accumulation written as a
    recursion over the per-batch `(domain_id, batch_count)` pairs in emission
    order.
-/

namespace LoadExt

/-- Record layout of `DOMAIN_DTYPE` (identical in both modules); the record
is allocated with `np.zeros`, so every field not explicitly assigned is 0. -/
structure DomainRec where
  ID : Int
  SUBCASE : Int
  STEP : Int
  ANALYSIS : Int
  TIME_FREQ_EIGR : Rat
  EIGI : Rat
  MODE : Int
  DESIGN_CYCLE : Int
  RANDOM : Int
  SE : Int
  AFPM : Int
  TRMC : Int
  INSTANCE : Int
  MODULE : Int
deriving DecidableEq, Inhabited

/-- Model of a pyNastran per-subcase result object, restricted to the
attributes the embedded writers read.  `none` models a missing attribute or
an attribute holding Python `None`. -/
structure SrcResult where
  analysis_code : Option Int := none
  sol : Option Int := none
  solution : Option Int := none
  modes : Option (List Int) := none
  eigrs : Option (List Rat) := none
  eigis : Option (List Rat) := none
  times : Option (List Rat) := none
  node_gridtype : List (Int × Int) := []
  data : List (List (List Rat)) := []
  element : Option (List Int) := none
  element_node : Option (List (Int × Int)) := none
  nnodes_per_element : Option Nat := none
  nnodes : Option Nat := none
deriving DecidableEq, Inhabited

/-- State of a `_Domains` registry: the key → id dict (as an association
list in insertion order) and the accumulated domain records. -/
structure Domains where
  map : List ((Int × Nat) × Int) := []
  records : List DomainRec := []
deriving DecidableEq, Inhabited

/-- Fresh registry, as built by `_Domains.__init__`. -/
def emptyDomains : Domains := {}

/-- First-match association-list lookup, the dict-membership test
`key in self._map` / `self._map[key]` combined. -/
def lookupKey : List ((Int × Nat) × Int) → (Int × Nat) → Option Int
  | [], _ => none
  | (k, v) :: rest, key => if k = key then some v else lookupKey rest key

/-- Lookup in an `Int`-keyed table (the `sol in _SOL_ANALYSIS` test plus
`_SOL_ANALYSIS[sol]`). -/
def lookupTbl : List (Int × Int) → Int → Option Int
  | [], _ => none
  | (k, v) :: rest, s => if k = s then some v else lookupTbl rest s

/-- `_Domains._SOL_ANALYSIS` from `op2_to_h5_gui.py`. -/
def SOL_ANALYSIS : List (Int × Int) :=
  [(101, 1), (103, 2), (105, 7), (106, 10), (107, 9),
   (108, 5), (109, 6), (110, 9), (111, 5), (112, 6),
   (144, 1), (200, 1)]

/-- MODE extraction shared by both `get_id` variants:
`modes is not None and itime < len(modes)` guards `int(modes[itime])`. -/
def modeAt (result : SrcResult) (itime : Nat) : Int :=
  match result.modes with
  | some ms => if itime < ms.length then ms.getD itime 0 else 0
  | none => 0

/-- Fallback branch reading `result._times` for `TIME_FREQ_EIGR`. -/
def timesAt (result : SrcResult) (itime : Nat) : Rat :=
  match result.times with
  | some ts => if itime < ts.length then ts.getD itime 0 else 0
  | none => 0

/-- TIME_FREQ_EIGR extraction shared by both `get_id` variants: `eigrs`
preferred, `_times` fallback, 0 default. -/
def timeFreqAt (result : SrcResult) (itime : Nat) : Rat :=
  match result.eigrs with
  | some es => if itime < es.length then es.getD itime 0 else timesAt result itime
  | none => timesAt result itime

/-- EIGI extraction (only the GUI module's `get_id` performs it). -/
def eigiAt (result : SrcResult) (itime : Nat) : Rat :=
  match result.eigis with
  | some es => if itime < es.length then es.getD itime 0 else 0
  | none => 0

/-- Python `getattr(result, 'sol', None) or getattr(result, 'solution', None)`:
`or` skips a missing or falsy (zero) `sol`. -/
def solOf (result : SrcResult) : Option Int :=
  match result.sol with
  | some s => if s ≠ 0 then some s else result.solution
  | none => result.solution

/-- ANALYSIS fallback of the GUI `get_id`: `if sol and sol in _SOL_ANALYSIS:
tbl[sol] else 1`. -/
def analysisFromSol (result : SrcResult) : Int :=
  match solOf result with
  | some s =>
      if s ≠ 0 then
        match lookupTbl SOL_ANALYSIS s with
        | some v => v
        | none => 1
      else 1
  | none => 1

namespace OpGui

/-- `_Domains.get_id` of `op2_to_h5_gui.py`: returns the id for `(subcase,
itime)`, creating and recording a fresh domain record on first sight. -/
def get_id (dom : Domains) (subcase : Int) (itime : Nat) (result : SrcResult) :
    Int × Domains :=
  match lookupKey dom.map (subcase, itime) with
  | some did => (did, dom)
  | none =>
      let did : Int := (dom.records.length : Int) + 1
      let analysis : Int :=
        match result.analysis_code with
        | some a => if a ≠ 0 then a else analysisFromSol result
        | none => analysisFromSol result
      let newRec : DomainRec :=
        { ID := did, SUBCASE := subcase, STEP := 0, ANALYSIS := analysis,
          TIME_FREQ_EIGR := timeFreqAt result itime, EIGI := eigiAt result itime,
          MODE := modeAt result itime, DESIGN_CYCLE := 0, RANDOM := 0,
          SE := 0, AFPM := 0, TRMC := 0, INSTANCE := 0, MODULE := 0 }
      (did, { map := dom.map ++ [((subcase, itime), did)],
              records := dom.records ++ [newRec] })

end OpGui

namespace MscW

/-- `_Domains.get_id` of `msc_h5_writer.py`: same key bookkeeping, but
ANALYSIS copies `analysis_code` whenever the attribute is present (with no
non-zero test, no solution-sequence fallback and no default of 1), and EIGI
is never assigned (stays 0). -/
def get_id (dom : Domains) (subcase : Int) (itime : Nat) (result : SrcResult) :
    Int × Domains :=
  match lookupKey dom.map (subcase, itime) with
  | some did => (did, dom)
  | none =>
      let did : Int := (dom.records.length : Int) + 1
      let analysis : Int :=
        match result.analysis_code with
        | some a => a
        | none => 0
      let newRec : DomainRec :=
        { ID := did, SUBCASE := subcase, STEP := 0, ANALYSIS := analysis,
          TIME_FREQ_EIGR := timeFreqAt result itime, EIGI := 0,
          MODE := modeAt result itime, DESIGN_CYCLE := 0, RANDOM := 0,
          SE := 0, AFPM := 0, TRMC := 0, INSTANCE := 0, MODULE := 0 }
      (did, { map := dom.map ++ [((subcase, itime), did)],
              records := dom.records ++ [newRec] })

end MscW

/-! Index tables and the shared `_save` helper. -/
/-- Record layout of `INDEX_DTYPE`. -/
structure IndexEntry where
  DOMAIN_ID : Int
  POSITION : Nat
  LENGTH : Nat
deriving DecidableEq, Inhabited

/-- Writers append `(did, pos, n)` to `idx_list` while advancing `pos += n`;
`mkIndex` is that accumulation, taking the `(did, n)` pairs in emission
order and the running offset. -/
def mkIndex : List (Int × Nat) → Nat → List IndexEntry
  | [], _ => []
  | (did, n) :: rest, pos => ⟨did, pos, n⟩ :: mkIndex rest (pos + n)

/-- `_save`: nothing is written when `data_list` is the empty list; otherwise
the batches are concatenated into one table and the index list is written as
the `/INDEX` mirror.  `none` = no dataset and no index dataset created. -/
def save {α : Type} (data_list : List (List α)) (index_list : List IndexEntry) :
    Option (List α × List IndexEntry) :=
  if data_list.isEmpty then none else some (data_list.flatten, index_list)

/-! Numpy-array access helpers. -/
/-- Fallible 2-D element access `d[i][c]`; `none` models `IndexError`. -/
def at2 (d : List (List Rat)) (i c : Nat) : Option Rat :=
  match d.get? i with
  | some row => row.get? c
  | none => none

/-- Total variant of `at2` used only to STATE content lemmas. -/
def dAt (d : List (List Rat)) (i c : Nat) : Rat :=
  (d.getD i []).getD c 0

/-- `res.data.shape[2]` of the 3-D result array (numpy arrays are
rectangular; on the list model this reads the first inner row's length). -/
def shape2 (data : List (List (List Rat))) : Nat :=
  ((data.headD []).headD []).length

/-- `d.shape[1]` of one step's 2-D slice. -/
def shape1 (d : List (List Rat)) : Nat :=
  (d.headD []).length

/-- `nnodes = getattr(res, 'nnodes_per_element', None)` with
`getattr(res, 'nnodes', 1)` fallback. -/
def nnodesOf (res : SrcResult) : Nat :=
  match res.nnodes_per_element with
  | some v => v
  | none => res.nnodes.getD 1

namespace OpGui

/-! Nodal result writer `_write_nodal`. -/
/-- Record layout of `NODAL_DTYPE`: the fixed 8-field layout
(ID, six components, DOMAIN_ID). -/
structure NodalRec where
  ID : Int
  X : Rat
  Y : Rat
  Z : Rat
  RX : Rat
  RY : Rat
  RZ : Rat
  DOMAIN_ID : Int
deriving DecidableEq, Inhabited

/-- Component `c` of entity `i`: assigned from `data[it][:, c]` when
`c < ncols`, left at its `np.zeros` default 0 otherwise. -/
def nodalField (d : List (List Rat)) (ncols i c : Nat) : Option Rat :=
  if c < ncols then at2 d i c else some 0

/-- One nodal record (row `i` of the step slice `d`). -/
def nodalRow (d : List (List Rat)) (ncols : Nat) (nid : Int) (i : Nat)
    (did : Int) : Option NodalRec := do
  let x ← nodalField d ncols i 0
  let y ← nodalField d ncols i 1
  let z ← nodalField d ncols i 2
  let rx ← nodalField d ncols i 3
  let ry ← nodalField d ncols i 4
  let rz ← nodalField d ncols i 5
  pure ⟨nid, x, y, z, rx, ry, rz, did⟩

/-- The vectorised per-step batch `arr` of `_write_nodal`, built row by row
over the node ids (starting at entity index `i`). -/
def nodalRows (d : List (List Rat)) (ncols : Nat) (did : Int) :
    List Int → Nat → Option (List NodalRec)
  | [], _ => some []
  | nid :: rest, i => do
      let r ← nodalRow d ncols nid i did
      let rs ← nodalRows d ncols did rest (i + 1)
      pure (r :: rs)

/-- Per-step loop `for it in range(ntimes)` of `_write_nodal`: produces, per
step, the batch `(did, rows, n)` where `n = len(nids)` is the count recorded
in the index entry. -/
def nodalSteps (sc : Int) (res : SrcResult) (nids : List Int) (ncols : Nat) :
    List Nat → Domains → Option (Domains × List (Int × List NodalRec × Nat))
  | [], dom => some (dom, [])
  | it :: rest, dom =>
      match get_id dom sc it res with
      | (did, dom1) => do
          let rows ← nodalRows (res.data.getD it []) ncols did nids 0
          let (dom2, bs) ← nodalSteps sc res nids ncols rest dom1
          pure (dom2, (did, rows, nids.length) :: bs)

/-- Subcase loop `for sc in sorted(result_dict)` of `_write_nodal`. -/
def nodalDict : List (Int × SrcResult) → Domains →
    Option (Domains × List (Int × List NodalRec × Nat))
  | [], dom => some (dom, [])
  | (sc, res) :: rest, dom => do
      let nids := res.node_gridtype.map Prod.fst
      let ncols := min (shape2 res.data) 6
      let (dom1, bs1) ← nodalSteps sc res nids ncols
        (List.range res.data.length) dom
      let (dom2, bs2) ← nodalDict rest dom1
      pure (dom2, bs1 ++ bs2)

/-- `_write_nodal`: accumulates the per-step batches, then `_save`s the
concatenated table together with its `/INDEX` mirror (`none` in the second
component = neither dataset created). -/
def write_nodal (result_dict : List (Int × SrcResult)) (dom : Domains) :
    Option (Domains × Option (List NodalRec × List IndexEntry)) := do
  let (dom1, bs) ← nodalDict result_dict dom
  pure (dom1, save (bs.map (fun b => b.2.1))
    (mkIndex (bs.map (fun b => (b.1, b.2.2))) 0))

/-! Generic 1-D element writer `_write_1d_result` (BAR/ROD/CONROD/BUSH
stress, strain and element forces).  The target dtype consists of `EID`,
the named value fields of the column map, and `DOMAIN_ID`, so a record is
modelled as `EID`, the name → value association list in column-map order,
and `DOMAIN_ID`. -/
/-- One row of a 1-D result table. -/
structure Rec1D where
  EID : Int
  vals : List (String × Rat)
  DOMAIN_ID : Int
deriving DecidableEq, Inhabited

/-- Value of field `(f, ci)`: assigned from `d[:, ci]` when
`ci < d.shape[1]`, left at the `np.zeros` default 0 otherwise. -/
def oneDVal (d : List (List Rat)) (cols i ci : Nat) : Option Rat :=
  if ci < cols then at2 d i ci else some 0

/-- The named fields of element `i`, walked in column-map order. -/
def oneDVals (d : List (List Rat)) (cols i : Nat) :
    List (String × Nat) → Option (List (String × Rat))
  | [] => some []
  | (f, ci) :: rest => do
      let v ← oneDVal d cols i ci
      let vs ← oneDVals d cols i rest
      pure ((f, v) :: vs)

/-- Per-step batch of `_write_1d_result`, one record per element id. -/
def oneDRows (d : List (List Rat)) (cols : Nat) (col_map : List (String × Nat))
    (did : Int) : List Int → Nat → Option (List Rec1D)
  | [], _ => some []
  | eid :: rest, i => do
      let vs ← oneDVals d cols i col_map
      let rs ← oneDRows d cols col_map did rest (i + 1)
      pure (⟨eid, vs, did⟩ :: rs)

/-- Element-id extraction of `_write_1d_result`: `res.element` if present and
not `None`, else column 0 of `res.element_node`, else the subcase is
skipped (`none`). -/
def eidsOf (res : SrcResult) : Option (List Int) :=
  match res.element with
  | some es => some es
  | none =>
      match res.element_node with
      | some en => some (en.map Prod.fst)
      | none => none

/-- Per-step loop of `_write_1d_result`; the index count is `n = len(eids)`. -/
def oneDSteps (col_map : List (String × Nat)) (sc : Int) (res : SrcResult)
    (eids : List Int) :
    List Nat → Domains → Option (Domains × List (Int × List Rec1D × Nat))
  | [], dom => some (dom, [])
  | it :: rest, dom =>
      match get_id dom sc it res with
      | (did, dom1) => do
          let d := res.data.getD it []
          let rows ← oneDRows d (shape1 d) col_map did eids 0
          let (dom2, bs) ← oneDSteps col_map sc res eids rest dom1
          pure (dom2, (did, rows, eids.length) :: bs)

/-- Subcase loop of `_write_1d_result` (a subcase without element ids is
skipped with `continue`). -/
def oneDDict (col_map : List (String × Nat)) :
    List (Int × SrcResult) → Domains →
    Option (Domains × List (Int × List Rec1D × Nat))
  | [], dom => some (dom, [])
  | (sc, res) :: rest, dom =>
      match eidsOf res with
      | none => oneDDict col_map rest dom
      | some eids => do
          let (dom1, bs1) ← oneDSteps col_map sc res eids
            (List.range res.data.length) dom
          let (dom2, bs2) ← oneDDict col_map rest dom1
          pure (dom2, bs1 ++ bs2)

/-- `_write_1d_result`. -/
def write_1d_result (col_map : List (String × Nat))
    (result_dict : List (Int × SrcResult)) (dom : Domains) :
    Option (Domains × Option (List Rec1D × List IndexEntry)) := do
  let (dom1, bs) ← oneDDict col_map result_dict dom
  pure (dom1, save (bs.map (fun b => b.2.1))
    (mkIndex (bs.map (fun b => (b.1, b.2.2))) 0))

/-- `ROD_STRESS_COLS`. -/
def ROD_STRESS_COLS : List (String × Nat) :=
  [("A", 0), ("MSA", 1), ("T", 2), ("MST", 3)]

/-- `BAR_STRESS_COLS`. -/
def BAR_STRESS_COLS : List (String × Nat) :=
  [("X1A", 0), ("X2A", 1), ("X3A", 2), ("X4A", 3),
   ("AX", 4), ("MAXA", 5), ("MINA", 6), ("MST", 7),
   ("X1B", 8), ("X2B", 9), ("X3B", 10), ("X4B", 11),
   ("MAXB", 12), ("MINB", 13), ("MSC", 14)]

/-! Plate center writer `_write_plate_stress` (QUAD4 / TRIA3).  The code
reads the four components of both surfaces at fixed columns 0..3 with no
column-count guard. -/
/-- Record layout of `PLATE_STRESS_DTYPE`. -/
structure PlateRec where
  EID : Int
  FD1 : Rat
  X1 : Rat
  Y1 : Rat
  XY1 : Rat
  FD2 : Rat
  X2 : Rat
  Y2 : Rat
  XY2 : Rat
  DOMAIN_ID : Int
deriving DecidableEq, Inhabited

/-- One merged center record for element `j`: the top surface is data row
`j*rpe`, the bottom surface row `j*rpe + 1`; columns 0..3 are read
unconditionally. -/
def plateRow (en : List (Int × Int)) (d : List (List Rat)) (rpe : Nat)
    (did : Int) (j : Nat) : Option PlateRec := do
  let fd1 ← at2 d (j * rpe) 0
  let x1 ← at2 d (j * rpe) 1
  let y1 ← at2 d (j * rpe) 2
  let xy1 ← at2 d (j * rpe) 3
  let fd2 ← at2 d (j * rpe + 1) 0
  let x2 ← at2 d (j * rpe + 1) 1
  let y2 ← at2 d (j * rpe + 1) 2
  let xy2 ← at2 d (j * rpe + 1) 3
  pure ⟨(en.getD (j * rpe) (0, 0)).1, fd1, x1, y1, xy1, fd2, x2, y2, xy2, did⟩

/-- Element loop of the plate batch (elements `j` in `range(n_elem)`). -/
def plateElems (en : List (Int × Int)) (d : List (List Rat)) (rpe : Nat)
    (did : Int) : List Nat → Option (List PlateRec)
  | [] => some []
  | j :: rest => do
      let r ← plateRow en d rpe did j
      let rs ← plateElems en d rpe did rest
      pure (r :: rs)

/-- Per-step loop of `_write_plate_stress`; the index count is `n_elem`. -/
def plateSteps (sc : Int) (res : SrcResult) (en : List (Int × Int))
    (rpe n_elem : Nat) :
    List Nat → Domains → Option (Domains × List (Int × List PlateRec × Nat))
  | [], dom => some (dom, [])
  | it :: rest, dom =>
      match get_id dom sc it res with
      | (did, dom1) => do
          let rows ← plateElems en (res.data.getD it []) rpe did
            (List.range n_elem)
          let (dom2, bs) ← plateSteps sc res en rpe n_elem rest dom1
          pure (dom2, (did, rows, n_elem) :: bs)

/-- Subcase loop of `_write_plate_stress`; `res.element_node` is read with no
`hasattr` guard, so a result without it aborts the writer (`none`). -/
def plateDict : List (Int × SrcResult) → Domains →
    Option (Domains × List (Int × List PlateRec × Nat))
  | [], dom => some (dom, [])
  | (sc, res) :: rest, dom =>
      match res.element_node with
      | none => none
      | some en => do
          let rpe := 2 * nnodesOf res
          let n_elem := en.length / rpe
          let (dom1, bs1) ← plateSteps sc res en rpe n_elem
            (List.range res.data.length) dom
          let (dom2, bs2) ← plateDict rest dom1
          pure (dom2, bs1 ++ bs2)

/-- `_write_plate_stress`. -/
def write_plate_stress (result_dict : List (Int × SrcResult)) (dom : Domains) :
    Option (Domains × Option (List PlateRec × List IndexEntry)) := do
  let (dom1, bs) ← plateDict result_dict dom
  pure (dom1, save (bs.map (fun b => b.2.1))
    (mkIndex (bs.map (fun b => (b.1, b.2.2))) 0))

/-! Corner writer `_write_quad_cn_stress` (QUAD_CN). -/
/-- Record layout of `QUAD_CN_STRESS_DTYPE`; `TERM` is the 4-byte tag field,
modelled as a `String`. -/
structure QuadCnRec where
  EID : Int
  TERM : String
  GRID : Int
  FD1 : Rat
  X1 : Rat
  Y1 : Rat
  XY1 : Rat
  FD2 : Rat
  X2 : Rat
  Y2 : Rat
  XY2 : Rat
  DOMAIN_ID : Int
deriving DecidableEq, Inhabited

/-- The two rows (top then bottom surface) that `_write_quad_cn_stress` emits
for sample point `ip` of the element whose block starts at `base`.  The tag
conditionals `b'Z1' if ip == 0 else b'Z1'` / `b'Z2' if ip == 0 else b'Z2'`
are translated verbatim. -/
def quadCnPoint (en : List (Int × Int)) (d : List (List Rat)) (eid : Int)
    (did : Int) (base ip : Nat) : Option (List QuadCnRec) := do
  let top_idx := base + ip * 2
  let bot_idx := top_idx + 1
  let grid := (en.getD top_idx (0, 0)).2
  let a0 ← at2 d top_idx 0
  let a1 ← at2 d top_idx 1
  let a2 ← at2 d top_idx 2
  let a3 ← at2 d top_idx 3
  let b0 ← at2 d bot_idx 0
  let b1 ← at2 d bot_idx 1
  let b2 ← at2 d bot_idx 2
  let b3 ← at2 d bot_idx 3
  pure [⟨eid, (if ip = 0 then "Z1" else "Z1"), grid,
          a0, a1, a2, a3, 0, 0, 0, 0, did⟩,
        ⟨eid, (if ip = 0 then "Z2" else "Z2"), grid,
          0, 0, 0, 0, b0, b1, b2, b3, did⟩]

/-- Sample-point loop `for ip in range(npts)` of `_write_quad_cn_stress`. -/
def quadCnPoints (en : List (Int × Int)) (d : List (List Rat)) (eid : Int)
    (did : Int) (base : Nat) : List Nat → Option (List QuadCnRec)
  | [] => some []
  | ip :: rest => do
      let pr ← quadCnPoint en d eid did base ip
      let rs ← quadCnPoints en d eid did base rest
      pure (pr ++ rs)

/-- Element loop `for ie in range(n_elem)` of `_write_quad_cn_stress`. -/
def quadCnElems (en : List (Int × Int)) (d : List (List Rat))
    (rpe npts : Nat) (did : Int) : List Nat → Option (List QuadCnRec)
  | [] => some []
  | ie :: rest => do
      let er ← quadCnPoints en d ((en.getD (ie * rpe) (0, 0)).1) did (ie * rpe)
        (List.range npts)
      let rs ← quadCnElems en d rpe npts did rest
      pure (er ++ rs)

/-- Per-step loop of `_write_quad_cn_stress`; the index entry records the
number of rows actually emitted (`row` in the code, `arr[:row]`). -/
def quadCnSteps (sc : Int) (res : SrcResult) (en : List (Int × Int))
    (rpe npts n_elem : Nat) :
    List Nat → Domains → Option (Domains × List (Int × List QuadCnRec × Nat))
  | [], dom => some (dom, [])
  | it :: rest, dom =>
      match get_id dom sc it res with
      | (did, dom1) => do
          let rows ← quadCnElems en (res.data.getD it []) rpe npts did
            (List.range n_elem)
          let (dom2, bs) ← quadCnSteps sc res en rpe npts n_elem rest dom1
          pure (dom2, (did, rows, rows.length) :: bs)

/-- Subcase loop of `_write_quad_cn_stress`: `res.element_node` is read
unguarded, then a subcase whose sample-point count is not greater than 1 is
skipped (`continue`) before any domain id is requested. -/
def quadCnDict : List (Int × SrcResult) → Domains →
    Option (Domains × List (Int × List QuadCnRec × Nat))
  | [], dom => some (dom, [])
  | (sc, res) :: rest, dom =>
      match res.element_node with
      | none => none
      | some en =>
          if nnodesOf res ≤ 1 then quadCnDict rest dom
          else do
            let rpe := 2 * nnodesOf res
            let (dom1, bs1) ← quadCnSteps sc res en rpe (nnodesOf res)
              (en.length / rpe) (List.range res.data.length) dom
            let (dom2, bs2) ← quadCnDict rest dom1
            pure (dom2, bs1 ++ bs2)

/-- `_write_quad_cn_stress`. -/
def write_quad_cn_stress (result_dict : List (Int × SrcResult))
    (dom : Domains) :
    Option (Domains × Option (List QuadCnRec × List IndexEntry)) := do
  let (dom1, bs) ← quadCnDict result_dict dom
  pure (dom1, save (bs.map (fun b => b.2.1))
    (mkIndex (bs.map (fun b => (b.1, b.2.2))) 0))

/-- Orchestrator test in `write_msc_h5` that decides whether the QUAD_CN
writer runs: some subcase declares more than one sample point per element. -/
def hasCorner (result_dict : List (Int × SrcResult)) : Bool :=
  result_dict.any (fun p => 1 < nnodesOf p.2)

/-! Eigenvalue-summary writer `_write_eigenvalue_summary`. -/
/-- Record layout of `EIGENVALUE_DTYPE`.  The derived quantities are real
numbers (`np.sqrt`), so the float fields of this record are `Real`. -/
structure EigRec where
  MODE : Int
  ORDER : Int
  EIGEN : Real
  OMEGA : Real
  FREQ : Real
  MASS : Real
  STIFF : Real
  RESFLG : Int
  FLDFLG : Int
  DOMAIN_ID : Int
deriving Inhabited

/-- `omega = np.sqrt(abs(eig)) if eig >= 0 else -np.sqrt(abs(eig))`. -/
noncomputable def eigOmega (eig : Real) : Real :=
  if 0 ≤ eig then Real.sqrt |eig| else -Real.sqrt |eig|

/-- `freq = abs(omega) / (2.0 * np.pi)`. -/
noncomputable def eigFreq (omega : Real) : Real :=
  |omega| / (2 * Real.pi)

/-- One summary row for mode index `i`; `eigrs[i]` is a fallible access
(`i` ranges over `range(len(modes))`). -/
noncomputable def eigRow (modes : List Int) (eigrs : List Rat) (i : Nat)
    (did : Int) : Option EigRec := do
  let eig ← eigrs.get? i
  pure { MODE := modes.getD i 0, ORDER := modes.getD i 0,
         EIGEN := (eig : Real), OMEGA := eigOmega (eig : Real),
         FREQ := eigFreq (eigOmega (eig : Real)),
         MASS := 0, STIFF := 0, RESFLG := 0, FLDFLG := 0, DOMAIN_ID := did }

/-- Mode loop `for i in range(n)` of `_write_eigenvalue_summary`; each mode
index requests its own domain id. -/
noncomputable def eigLoop (sc : Int) (res : SrcResult) (modes : List Int)
    (eigrs : List Rat) :
    List Nat → Domains → Option (Domains × List EigRec)
  | [], dom => some (dom, [])
  | i :: rest, dom =>
      match get_id dom sc i res with
      | (did, dom1) => do
          let r ← eigRow modes eigrs i did
          let (dom2, rs) ← eigLoop sc res modes eigrs rest dom1
          pure (dom2, (r :: rs))

/-- Subcase loop of `_write_eigenvalue_summary` (skips subcases without
`modes`/`eigrs`); each batch carries `n = len(modes)` for the index. -/
noncomputable def eigDict : List (Int × SrcResult) → Domains →
    Option (Domains × List (List EigRec × Nat))
  | [], dom => some (dom, [])
  | (sc, res) :: rest, dom =>
      match res.modes, res.eigrs with
      | some modes, some eigrs => do
          let (dom1, rows) ← eigLoop sc res modes eigrs
            (List.range modes.length) dom
          let (dom2, bs) ← eigDict rest dom1
          pure (dom2, (rows, modes.length) :: bs)
      | _, _ => eigDict rest dom

/-- `_write_eigenvalue_summary`.  Note the index entries are appended as
`(1, pos, n)` — the DOMAIN_ID of every index entry is the constant 1,
regardless of the per-mode domain ids stored in the records. -/
noncomputable def write_eigenvalue_summary (eig_dict : List (Int × SrcResult))
    (dom : Domains) :
    Option (Domains × Option (List EigRec × List IndexEntry)) := do
  let (dom1, bs) ← eigDict eig_dict dom
  pure (dom1, save (bs.map Prod.fst)
    (mkIndex (bs.map (fun b => ((1 : Int), b.2))) 0))

end OpGui

/-! Call-sequence machinery for reasoning about the registry. -/
/-- Run a whole sequence of `get_id` calls (subcase, step, result) through
the GUI registry, starting from a given state. -/
def runCalls (cs : List (Int × Nat × SrcResult)) (dom : Domains) : Domains :=
  cs.foldl (fun d c => (OpGui.get_id d c.1 c.2.1 c.2.2).2) dom

/-- Keys of a call sequence. -/
def keysOf (cs : List (Int × Nat × SrcResult)) : List (Int × Nat) :=
  cs.map (fun c => (c.1, c.2.1))

/-- Distinct keys in first-seen order. -/
def firstSeen (ks : List (Int × Nat)) : List (Int × Nat) :=
  ks.foldl (fun acc k => if k ∈ acc then acc else acc ++ [k]) []

/-- Position of the first occurrence of a key. -/
def keyIndex : List (Int × Nat) → (Int × Nat) → Nat
  | [], _ => 0
  | k :: rest, key => if k = key then 0 else keyIndex rest key + 1

/-- Keys paired with consecutive ids starting from `s`. -/
def assignIds : List (Int × Nat) → Int → List ((Int × Nat) × Int)
  | [], _ => []
  | k :: rest, s => (k, s) :: assignIds rest (s + 1)

/-! Index-table structure lemmas. -/
/-- Canonical encoding of "the index entries' half-open ranges
`[POSITION, POSITION+LENGTH)` exactly tile `[0, rows.length)` with no gap
and no overlap, ordered by ascending POSITION": every entry starts exactly
where the previous entries end, and the lengths sum to the record count. -/
def tiles {α : Type} (rows : List α) (idx : List IndexEntry) : Prop :=
  (idx.map IndexEntry.LENGTH).sum = rows.length ∧
  ∀ k, k < idx.length →
    (idx.getD k default).POSITION = ((idx.take k).map IndexEntry.LENGTH).sum

/-! Concrete inputs and output extractors used by witnesses and
counterexamples. -/
/-- Two-node, one-step, two-component nodal result. -/
def resW2 : SrcResult :=
  { node_gridtype := [(1, 1), (2, 1)], data := [[[5, 6], [7, 8]]] }

/-- Registry state after one fresh `get_id` call with key `(1, 0)` on a
result with no metadata. -/
def domW2 : Domains :=
  { map := [((1, 0), 1)],
    records := [⟨1, 1, 0, 1, 0, 0, 0, 0, 0, 0, 0, 0, 0, 0⟩] }

/-- Two-element, one-step, four-component 1-D result. -/
def res1W2 : SrcResult :=
  { element := some [11, 12], data := [[[1, 2, 3, 4], [5, 6, 7, 8]]] }

/-- Source model of the end-to-end scenario: 5 nodal entities with 6
components over 3 time steps. -/
def resC4 : SrcResult :=
  { node_gridtype := [(1, 1), (2, 1), (3, 1), (4, 1), (5, 1)],
    data := List.replicate 3 (List.replicate 5 (List.replicate 6 0)) }

/-- Two load cases of `resC4`. -/
def dictC4 : List (Int × SrcResult) := [(1, resC4), (2, resC4)]

/-- The nodal writer run on the C4 scenario, from a fresh registry. -/
def outC4 := OpGui.write_nodal dictC4 emptyDomains

/-- Rows of a nodal writer outcome (empty if nothing was written). -/
def nodalRowsOf
    (o : Option (Domains × Option (List OpGui.NodalRec × List IndexEntry))) :
    List OpGui.NodalRec :=
  match o with
  | some (_, some (rows, _)) => rows
  | _ => []

/-- Index entries of a nodal writer outcome. -/
def nodalIdxOf
    (o : Option (Domains × Option (List OpGui.NodalRec × List IndexEntry))) :
    List IndexEntry :=
  match o with
  | some (_, some (_, idx)) => idx
  | _ => []

/-- Final registry state of a nodal writer outcome. -/
def domStateOf
    (o : Option (Domains × Option (List OpGui.NodalRec × List IndexEntry))) :
    Domains :=
  match o with
  | some (d, _) => d
  | none => emptyDomains

/-- A plate result with one element (center-only, so 2 rows per element) and
only 3 per-row components, fewer than the 4 fixed columns the plate-center
record layout reads. -/
def resPlateCex : SrcResult :=
  { element_node := some [(10, 0), (10, 0)],
    data := [[[1, 2, 3], [4, 5, 6]]] }

/-- One BAR element with only 2 source columns (the BAR layout maps 15). -/
def res5W : SrcResult := { element := some [3], data := [[[7, 8]]] }

/-- A result carrying data but neither `element` nor `element_node`: the 1-D
writer skips it. -/
def resSkipW : SrcResult := { data := [[[1]]] }

/-! C6: derivation of the ANALYSIS field. -/
/-- Modelled from the claim's words, fallback part: "otherwise it is looked
up from the result's declared solution-sequence number in a fixed table;
otherwise it defaults to the static analysis kind (code 1)". -/
def specSolKind (solSeq : Option Int) : Int :=
  match solSeq with
  | some s =>
      match lookupTbl SOL_ANALYSIS s with
      | some v => v
      | none => 1
  | none => 1

/-- Modelled from the claim's words: "ANALYSIS is derived from the source
result's explicit analysis-code attribute if that attribute is present and
non-zero; otherwise" the solution-sequence lookup with static default. -/
def specAnalysisKind (explicitCode : Option Int) (solSeq : Option Int) : Int :=
  match explicitCode with
  | some a => if a ≠ 0 then a else specSolKind solSeq
  | none => specSolKind solSeq

/-- A result with no analysis-code attribute and solution sequence 101
(linear statics). -/
def resC6 : SrcResult := { sol := some 101 }

/-! The eigenvalue-summary writer: concrete runs. -/
/-- Rows of an eigenvalue-summary outcome. -/
def eigRowsOf
    (o : Option (Domains × Option (List OpGui.EigRec × List IndexEntry))) :
    List OpGui.EigRec :=
  match o with
  | some (_, some (rows, _)) => rows
  | _ => []

/-- Index entries of an eigenvalue-summary outcome. -/
def eigIdxOf
    (o : Option (Domains × Option (List OpGui.EigRec × List IndexEntry))) :
    List IndexEntry :=
  match o with
  | some (_, some (_, idx)) => idx
  | _ => []

/-- Eigenvector result exposing 2 modes. -/
def resEigCex : SrcResult := { modes := some [1, 2], eigrs := some [4, 9] }

/-- Summary writer run on `resEigCex` from a fresh registry. -/
noncomputable def eigOutCex :=
  OpGui.write_eigenvalue_summary [(1, resEigCex)] emptyDomains

/-- Eigenvector result with eigenvalues −400 and 100. -/
def resC9 : SrcResult := { modes := some [1, 2], eigrs := some [-400, 100] }

/-- Summary writer run on `resC9` from a fresh registry. -/
noncomputable def eigOutC9 :=
  OpGui.write_eigenvalue_summary [(1, resC9)] emptyDomains

/-! C8: the QUAD_CN corner writer. -/
/-- A corner-output plate result: 5 sample points per element (center with
grid tag 0, then corners `g1..g4`), one element `eid`, one step, top/bottom
rows interleaved, 4 components per row. -/
def resCn (eid g1 g2 g3 g4 : Int) : SrcResult :=
  { nnodes_per_element := some 5,
    element_node := some [(eid, 0), (eid, 0), (eid, g1), (eid, g1),
      (eid, g2), (eid, g2), (eid, g3), (eid, g3), (eid, g4), (eid, g4)],
    data := [[[10, 11, 12, 13], [20, 21, 22, 23], [30, 31, 32, 33],
              [40, 41, 42, 43], [50, 51, 52, 53], [60, 61, 62, 63],
              [70, 71, 72, 73], [80, 81, 82, 83], [90, 91, 92, 93],
              [100, 101, 102, 103]]] }

/-- Rows of a corner-writer outcome. -/
def quadRowsOf
    (o : Option (Domains × Option (List OpGui.QuadCnRec × List IndexEntry))) :
    List OpGui.QuadCnRec :=
  match o with
  | some (_, some (rows, _)) => rows
  | _ => []

/-- A concrete corner-writer run: element 7, corner grids 100..103. -/
def outC8 := OpGui.write_quad_cn_stress [(1, resCn 7 100 101 102 103)]
  emptyDomains

/-- A center-only plate result (1 sample point per element). -/
def resNoCn : SrcResult :=
  { element_node := some [(1, 1)], data := [[[1, 2, 3, 4]]] }

/-! C10: the nodal writer reads at most the first 6 component columns. -/
/-- Truncate every data row of a result to its first 6 components. -/
def trunc6 (res : SrcResult) : SrcResult :=
  { res with data := res.data.map (fun step => step.map (fun row => row.take 6)) }

/-- Truncate a whole result dict. -/
def truncDict (dict : List (Int × SrcResult)) : List (Int × SrcResult) :=
  dict.map (fun p => (p.1, trunc6 p.2))

/-- A one-node result with 7 component columns. -/
def res10W : SrcResult :=
  { node_gridtype := [(1, 1)], data := [[[1, 2, 3, 4, 5, 6, 7]]] }

theorem lookup_assign_mem {l : List (Int × Nat)} {k : Int × Nat} (s : Int)
    (hk : k ∈ l) :
    lookupKey (assignIds l s) k = some (s + (keyIndex l k : Int)) := by
  induction l generalizing s with
  | nil => cases hk
  | cons k0 rest ih =>
      by_cases h : k0 = k
      · subst h
        simp [assignIds, lookupKey, keyIndex]
      · have hk' : k ∈ rest := by
          rcases List.mem_cons.mp hk with h' | h'
          · exact absurd h'.symm h
          · exact h'
        simp only [assignIds, lookupKey, keyIndex, if_neg h]
        rw [ih _ hk']
        congr 1
        push_cast
        ring

theorem lookup_assign_not_mem {l : List (Int × Nat)} {k : Int × Nat} (s : Int)
    (hk : k ∉ l) :
    lookupKey (assignIds l s) k = none := by
  induction l generalizing s with
  | nil => rfl
  | cons k0 rest ih =>
      have h0 : k0 ≠ k := fun h => hk (h ▸ List.mem_cons_self k0 rest)
      have h1 : k ∉ rest := fun h => hk (List.mem_cons_of_mem _ h)
      simp only [assignIds, lookupKey, if_neg h0]
      exact ih _ h1

theorem assign_append (l : List (Int × Nat)) (k : Int × Nat) (s : Int) :
    assignIds (l ++ [k]) s = assignIds l s ++ [(k, s + (l.length : Int))] := by
  induction l generalizing s with
  | nil => simp [assignIds]
  | cons k0 rest ih =>
      rw [List.cons_append]
      simp only [assignIds, List.length_cons, List.cons_append, ih (s + 1)]
      have harith : s + 1 + (rest.length : Int) = s + ((rest.length : Int) + 1) := by
        ring
      push_cast
      rw [harith]

theorem keyIndex_append_self {l : List (Int × Nat)} {k : Int × Nat}
    (hk : k ∉ l) : keyIndex (l ++ [k]) k = l.length := by
  induction l with
  | nil => simp [keyIndex]
  | cons k0 rest ih =>
      have h0 : k0 ≠ k := fun h => hk (h ▸ List.mem_cons_self k0 rest)
      have h1 : k ∉ rest := fun h => hk (List.mem_cons_of_mem _ h)
      simp [keyIndex, if_neg h0, ih h1]

theorem firstSeen_append (ks : List (Int × Nat)) (k : Int × Nat) :
    firstSeen (ks ++ [k]) =
      if k ∈ firstSeen ks then firstSeen ks else firstSeen ks ++ [k] := by
  simp [firstSeen, List.foldl_append]

theorem runCalls_append (cs : List (Int × Nat × SrcResult))
    (c : Int × Nat × SrcResult) (dom : Domains) :
    runCalls (cs ++ [c]) dom =
      (OpGui.get_id (runCalls cs dom) c.1 c.2.1 c.2.2).2 := by
  simp [runCalls, List.foldl_append]

theorem keysOf_append (cs : List (Int × Nat × SrcResult))
    (c : Int × Nat × SrcResult) :
    keysOf (cs ++ [c]) = keysOf cs ++ [(c.1, c.2.1)] := by
  simp [keysOf]

/-- Registry invariant: after any call sequence the dict holds exactly the
distinct keys in first-seen order, paired with ids 1, 2, …, and one record
has been accumulated per distinct key. -/
theorem run_invariant (cs : List (Int × Nat × SrcResult)) :
    (runCalls cs emptyDomains).map = assignIds (firstSeen (keysOf cs)) 1 ∧
    (runCalls cs emptyDomains).records.length =
      (firstSeen (keysOf cs)).length := by
  induction cs using List.reverseRecOn with
  | nil => simp [runCalls, keysOf, firstSeen, assignIds, emptyDomains]
  | append_singleton cs c ih =>
      obtain ⟨hmap, hlen⟩ := ih
      rw [runCalls_append, keysOf_append, firstSeen_append]
      by_cases hk : (c.1, c.2.1) ∈ firstSeen (keysOf cs)
      · have hl : lookupKey (runCalls cs emptyDomains).map (c.1, c.2.1) =
            some (1 + (keyIndex (firstSeen (keysOf cs)) (c.1, c.2.1) : Int)) := by
          rw [hmap]; exact lookup_assign_mem 1 hk
        simp only [OpGui.get_id, hl]
        exact ⟨by rw [hmap]; simp [hk], by rw [hlen]; simp [hk]⟩
      · have hl : lookupKey (runCalls cs emptyDomains).map (c.1, c.2.1) = none := by
          rw [hmap]; exact lookup_assign_not_mem 1 hk
        simp only [OpGui.get_id, hl]
        refine ⟨?_, ?_⟩
        · simp only [if_neg hk, hmap, hlen, assign_append]
          congr 3
          omega
        · simp [if_neg hk, hlen]

/-- C1.  After any sequence of `get_id` calls starting from a fresh registry,
the id returned for a further call with key `(sc, it)` is exactly one more
than the position of that key in the list of distinct keys in first-seen
order.  Hence a repeated key gets back the id assigned at its first
occurrence, and the k-th distinct key receives id k: ids are dense,
1-based, in first-seen order. -/
theorem C1_domain_ids_dense (cs : List (Int × Nat × SrcResult)) (sc : Int)
    (it : Nat) (res : SrcResult) :
    (OpGui.get_id (runCalls cs emptyDomains) sc it res).1 =
      (keyIndex (firstSeen (keysOf (cs ++ [(sc, it, res)]))) (sc, it) : Int)
        + 1 := by
  obtain ⟨hmap, hlen⟩ := run_invariant cs
  rw [keysOf_append, firstSeen_append]
  by_cases hk : (sc, it) ∈ firstSeen (keysOf cs)
  · have hl : lookupKey (runCalls cs emptyDomains).map (sc, it) =
        some (1 + (keyIndex (firstSeen (keysOf cs)) (sc, it) : Int)) := by
      rw [hmap]; exact lookup_assign_mem 1 hk
    simp only [OpGui.get_id, hl]
    simp [hk]
    ring
  · have hl : lookupKey (runCalls cs emptyDomains).map (sc, it) = none := by
      rw [hmap]; exact lookup_assign_not_mem 1 hk
    simp only [OpGui.get_id, hl]
    simp only [if_neg hk, keyIndex_append_self hk, hlen]

theorem mkIndex_lengths (bs : List (Int × Nat)) (pos : Nat) :
    (mkIndex bs pos).map IndexEntry.LENGTH = bs.map Prod.snd := by
  induction bs generalizing pos with
  | nil => rfl
  | cons b rest ih => cases b; simp [mkIndex, ih]

theorem mkIndex_length (bs : List (Int × Nat)) (pos : Nat) :
    (mkIndex bs pos).length = bs.length := by
  induction bs generalizing pos with
  | nil => rfl
  | cons b rest ih => cases b; simp [mkIndex, ih]

theorem mkIndex_position (bs : List (Int × Nat)) (pos : Nat) (k : Nat)
    (hk : k < bs.length) :
    ((mkIndex bs pos).getD k default).POSITION =
      pos + (((mkIndex bs pos).take k).map IndexEntry.LENGTH).sum := by
  induction bs generalizing pos k with
  | nil => simp at hk
  | cons b rest ih =>
      cases b with
      | mk did n =>
          cases k with
          | zero => simp [mkIndex]
          | succ k =>
              have hk' : k < rest.length := by simpa using hk
              simp only [mkIndex, List.getD_cons_succ, List.take_succ_cons,
                List.map_cons, List.sum_cons]
              rw [ih (pos + n) k hk']
              omega

/-- Output contract of the `_save` pattern all writers share: if every batch
really contains the number of records its index entry announces, the index
tiles the concatenated table. -/
theorem save_tiles {Rec : Type} (bs : List (Int × List Rec × Nat))
    (rows : List Rec) (idx : List IndexEntry)
    (hlen : ∀ b ∈ bs, b.2.1.length = b.2.2)
    (hsave : save (bs.map (fun b => b.2.1))
      (mkIndex (bs.map (fun b => (b.1, b.2.2))) 0) = some (rows, idx)) :
    tiles rows idx := by
  unfold save at hsave
  by_cases he : (bs.map (fun b => b.2.1)).isEmpty
  · simp [he] at hsave
  · simp only [he, if_neg, Bool.false_eq_true, ↓reduceIte,
      Option.some.injEq, Prod.mk.injEq] at hsave
    obtain ⟨hrows, hidx⟩ := hsave
    subst hrows hidx
    constructor
    · rw [mkIndex_lengths, List.length_flatten, List.map_map, List.map_map]
      refine congrArg List.sum (List.map_congr_left ?_)
      intro b hb
      simp [Function.comp, hlen b hb]
    · intro k hk
      rw [mkIndex_length, List.length_map] at hk
      have hpos := mkIndex_position (bs.map (fun b => (b.1, b.2.2))) 0 k
        (by simpa using hk)
      simpa using hpos

/-- Segment contract of the `_save` pattern: if additionally every record of
a batch carries the batch's domain id, then for every index entry the row
range it describes holds only records of the entry's DOMAIN_ID.  `pad`
generalises the part of the table before the entries under consideration. -/
theorem mkIndex_segment {Rec : Type} (domOf : Rec → Int) :
    ∀ (bs : List (Int × List Rec × Nat)) (pad : List Rec),
      (∀ b ∈ bs, b.2.1.length = b.2.2) →
      (∀ b ∈ bs, ∀ r ∈ b.2.1, domOf r = b.1) →
      ∀ e ∈ mkIndex (bs.map (fun b => (b.1, b.2.2))) pad.length,
        ∀ r ∈ ((pad ++ (bs.map (fun b => b.2.1)).flatten).drop
            e.POSITION).take e.LENGTH,
          domOf r = e.DOMAIN_ID := by
  intro bs
  induction bs with
  | nil => intro pad _ _ e he; simp [mkIndex] at he
  | cons b rest ih =>
      intro pad hlen hdom e he r hr
      simp only [List.map_cons, mkIndex, List.mem_cons] at he
      rcases he with he | he
      · subst he
        simp only [List.map_cons, List.flatten_cons] at hr
        rw [List.drop_left] at hr
        have hb : b.2.1.length = b.2.2 := hlen b (List.mem_cons_self b rest)
        rw [← hb, List.take_left] at hr
        exact hdom b (List.mem_cons_self b rest) r hr
      · have hb : b.2.1.length = b.2.2 := hlen b (List.mem_cons_self b rest)
        have hpad : (pad ++ b.2.1).length = pad.length + b.2.2 := by
          rw [List.length_append, hb]
        rw [← hpad] at he
        have hflat : pad ++ (List.map (fun b => b.2.1) (b :: rest)).flatten =
            (pad ++ b.2.1) ++ (rest.map (fun b => b.2.1)).flatten := by
          simp [List.append_assoc]
        rw [hflat] at hr
        exact ih (pad ++ b.2.1)
          (fun b' hb' => hlen b' (List.mem_cons_of_mem _ hb'))
          (fun b' hb' => hdom b' (List.mem_cons_of_mem _ hb'))
          e he r hr

namespace OpGui

/-! Batch-shape lemmas for the nodal and 1-D writers. -/
theorem nodalRows_length (d : List (List Rat)) (ncols : Nat) (did : Int) :
    ∀ (nids : List Int) (i : Nat) (rs : List NodalRec),
      nodalRows d ncols did nids i = some rs → rs.length = nids.length := by
  intro nids
  induction nids with
  | nil =>
      intro i rs h
      simp only [nodalRows, Option.some.injEq] at h
      subst h
      rfl
  | cons nid rest ih =>
      intro i rs h
      simp only [nodalRows] at h
      obtain ⟨r, hr, h⟩ := Option.bind_eq_some.mp h
      obtain ⟨rs', hrs, h⟩ := Option.bind_eq_some.mp h
      obtain rfl : r :: rs' = rs := by simpa using h
      simp [ih (i + 1) rs' hrs]

theorem nodalSteps_batches (sc : Int) (res : SrcResult) (nids : List Int)
    (ncols : Nat) :
    ∀ (its : List Nat) (dom dom' : Domains)
      (bs : List (Int × List NodalRec × Nat)),
      nodalSteps sc res nids ncols its dom = some (dom', bs) →
      ∀ b ∈ bs, b.2.1.length = b.2.2 := by
  intro its
  induction its with
  | nil =>
      intro dom dom' bs h
      simp only [nodalSteps, Option.some.injEq, Prod.mk.injEq] at h
      obtain ⟨-, h2⟩ := h
      subst h2
      intro b hb
      simp at hb
  | cons it rest ih =>
      intro dom dom' bs h
      simp only [nodalSteps] at h
      rcases hg : get_id dom sc it res with ⟨did, dom1⟩
      rw [hg] at h
      obtain ⟨rows, hrows, h⟩ := Option.bind_eq_some.mp h
      obtain ⟨⟨dom2, bs'⟩, hrec, h⟩ := Option.bind_eq_some.mp h
      obtain ⟨rfl, rfl⟩ : dom2 = dom' ∧ (did, rows, nids.length) :: bs' = bs := by
        simpa using h
      intro b hb
      rcases List.mem_cons.mp hb with rfl | hb
      · exact nodalRows_length _ _ _ _ _ _ hrows
      · exact ih dom1 _ bs' hrec b hb

theorem nodalDict_batches :
    ∀ (dict : List (Int × SrcResult)) (dom dom' : Domains)
      (bs : List (Int × List NodalRec × Nat)),
      nodalDict dict dom = some (dom', bs) →
      ∀ b ∈ bs, b.2.1.length = b.2.2 := by
  intro dict
  induction dict with
  | nil =>
      intro dom dom' bs h
      simp only [nodalDict, Option.some.injEq, Prod.mk.injEq] at h
      obtain ⟨-, h2⟩ := h
      subst h2
      intro b hb
      simp at hb
  | cons p rest ih =>
      intro dom dom' bs h
      rcases p with ⟨sc, res⟩
      simp only [nodalDict] at h
      obtain ⟨⟨dom1, bs1⟩, h1, h⟩ := Option.bind_eq_some.mp h
      obtain ⟨⟨dom2, bs2⟩, h2, h⟩ := Option.bind_eq_some.mp h
      obtain ⟨rfl, rfl⟩ : dom2 = dom' ∧ bs1 ++ bs2 = bs := by simpa using h
      intro b hb
      rcases List.mem_append.mp hb with hb | hb
      · exact nodalSteps_batches sc res _ _ _ dom dom1 bs1 h1 b hb
      · exact ih dom1 _ bs2 h2 b hb

theorem oneDRows_shape (d : List (List Rat)) (cols : Nat)
    (cm : List (String × Nat)) (did : Int) :
    ∀ (eids : List Int) (i : Nat) (rs : List Rec1D),
      oneDRows d cols cm did eids i = some rs →
      rs.length = eids.length ∧ ∀ r ∈ rs, r.DOMAIN_ID = did := by
  intro eids
  induction eids with
  | nil =>
      intro i rs h
      simp only [oneDRows, Option.some.injEq] at h
      subst h
      exact ⟨rfl, by intro r hr; simp at hr⟩
  | cons eid rest ih =>
      intro i rs h
      simp only [oneDRows] at h
      obtain ⟨vs, hvs, h⟩ := Option.bind_eq_some.mp h
      obtain ⟨rs', hrs, h⟩ := Option.bind_eq_some.mp h
      obtain rfl : (⟨eid, vs, did⟩ : Rec1D) :: rs' = rs := by simpa using h
      obtain ⟨hl, hd⟩ := ih (i + 1) rs' hrs
      refine ⟨by simp [hl], ?_⟩
      intro r hr
      rcases List.mem_cons.mp hr with rfl | hr
      · rfl
      · exact hd r hr

theorem oneDSteps_batches (cm : List (String × Nat)) (sc : Int)
    (res : SrcResult) (eids : List Int) :
    ∀ (its : List Nat) (dom dom' : Domains)
      (bs : List (Int × List Rec1D × Nat)),
      oneDSteps cm sc res eids its dom = some (dom', bs) →
      ∀ b ∈ bs, b.2.1.length = b.2.2 ∧ ∀ r ∈ b.2.1, r.DOMAIN_ID = b.1 := by
  intro its
  induction its with
  | nil =>
      intro dom dom' bs h
      simp only [oneDSteps, Option.some.injEq, Prod.mk.injEq] at h
      obtain ⟨-, h2⟩ := h
      subst h2
      intro b hb
      simp at hb
  | cons it rest ih =>
      intro dom dom' bs h
      simp only [oneDSteps] at h
      rcases hg : get_id dom sc it res with ⟨did, dom1⟩
      rw [hg] at h
      obtain ⟨rows, hrows, h⟩ := Option.bind_eq_some.mp h
      obtain ⟨⟨dom2, bs'⟩, hrec, h⟩ := Option.bind_eq_some.mp h
      obtain ⟨rfl, rfl⟩ : dom2 = dom' ∧ (did, rows, eids.length) :: bs' = bs := by
        simpa using h
      intro b hb
      rcases List.mem_cons.mp hb with rfl | hb
      · obtain ⟨hl, hd⟩ := oneDRows_shape _ _ _ _ _ _ _ hrows
        exact ⟨hl, hd⟩
      · exact ih dom1 _ bs' hrec b hb

theorem oneDDict_batches (cm : List (String × Nat)) :
    ∀ (dict : List (Int × SrcResult)) (dom dom' : Domains)
      (bs : List (Int × List Rec1D × Nat)),
      oneDDict cm dict dom = some (dom', bs) →
      ∀ b ∈ bs, b.2.1.length = b.2.2 ∧ ∀ r ∈ b.2.1, r.DOMAIN_ID = b.1 := by
  intro dict
  induction dict with
  | nil =>
      intro dom dom' bs h
      simp only [oneDDict, Option.some.injEq, Prod.mk.injEq] at h
      obtain ⟨-, h2⟩ := h
      subst h2
      intro b hb
      simp at hb
  | cons p rest ih =>
      intro dom dom' bs h
      rcases p with ⟨sc, res⟩
      simp only [oneDDict] at h
      rcases he : eidsOf res with - | eids
      · rw [he] at h
        exact ih dom dom' bs h
      · rw [he] at h
        obtain ⟨⟨dom1, bs1⟩, h1, h⟩ := Option.bind_eq_some.mp h
        obtain ⟨⟨dom2, bs2⟩, h2, h⟩ := Option.bind_eq_some.mp h
        obtain ⟨rfl, rfl⟩ : dom2 = dom' ∧ bs1 ++ bs2 = bs := by simpa using h
        intro b hb
        rcases List.mem_append.mp hb with hb | hb
        · exact oneDSteps_batches cm sc res eids _ dom dom1 bs1 h1 b hb
        · exact ih dom1 _ bs2 h2 b hb

end OpGui

/-- C2.  Whenever a writer commits a result table together with its INDEX
mirror, the index entries' LENGTH fields sum to the table's record count and
entry k starts exactly at the sum of the lengths before it — i.e. the
half-open ranges `[POSITION, POSITION+LENGTH)` tile `[0, count)` without gap
or overlap, in ascending POSITION order (`tiles`).  Proved for the nodal
writer and for the generic 1-D writer (all of its dtype/column-map
instantiations). -/
theorem C2_index_tiling :
    (∀ (dict : List (Int × SrcResult)) (dom dom' : Domains)
        (rows : List OpGui.NodalRec) (idx : List IndexEntry),
        OpGui.write_nodal dict dom = some (dom', some (rows, idx)) →
        tiles rows idx) ∧
    (∀ (cm : List (String × Nat)) (dict : List (Int × SrcResult))
        (dom dom' : Domains) (rows : List OpGui.Rec1D)
        (idx : List IndexEntry),
        OpGui.write_1d_result cm dict dom = some (dom', some (rows, idx)) →
        tiles rows idx) := by
  constructor
  · intro dict dom dom' rows idx h
    simp only [OpGui.write_nodal] at h
    obtain ⟨⟨dom1, bs⟩, hd, h⟩ := Option.bind_eq_some.mp h
    obtain ⟨rfl, hsave⟩ : dom1 = dom' ∧
        save (bs.map (fun b => b.2.1))
          (mkIndex (bs.map (fun b => (b.1, b.2.2))) 0) = some (rows, idx) := by
      simpa using h
    exact save_tiles bs rows idx (OpGui.nodalDict_batches dict dom _ bs hd)
      hsave
  · intro cm dict dom dom' rows idx h
    simp only [OpGui.write_1d_result] at h
    obtain ⟨⟨dom1, bs⟩, hd, h⟩ := Option.bind_eq_some.mp h
    obtain ⟨rfl, hsave⟩ : dom1 = dom' ∧
        save (bs.map (fun b => b.2.1))
          (mkIndex (bs.map (fun b => (b.1, b.2.2))) 0) = some (rows, idx) := by
      simpa using h
    exact save_tiles bs rows idx
      (fun b hb => (OpGui.oneDDict_batches cm dict dom _ bs hd b hb).1)
      hsave

/-! Array-access lemmas. -/
theorem get?_eq_some_getD {α : Type} (l : List α) (c : Nat) (x : α)
    (hc : c < l.length) : l.get? c = some (l.getD c x) := by
  rw [List.get?_eq_getElem?, List.getElem?_eq_getElem hc,
    List.getD_eq_getElem l x hc]

theorem getD_mem {α : Type} (l : List α) (x : α) (i : Nat)
    (hi : i < l.length) : l.getD i x ∈ l := by
  rw [List.getD_eq_getElem l x hi]
  exact List.getElem_mem hi

theorem at2_eq_some {d : List (List Rat)} {i c : Nat} (hi : i < d.length)
    (hc : c < (d.getD i []).length) :
    at2 d i c = some (dAt d i c) := by
  unfold at2 dAt
  rw [get?_eq_some_getD d i [] hi]
  exact get?_eq_some_getD _ c 0 hc

namespace OpGui

theorem oneDVal_eq {d : List (List Rat)} {cols i : Nat} (ci : Nat)
    (hi : i < d.length) (hrow : cols ≤ (d.getD i []).length) :
    oneDVal d cols i ci = some (if ci < cols then dAt d i ci else 0) := by
  unfold oneDVal
  by_cases h : ci < cols
  · rw [if_pos h, if_pos h]
    exact at2_eq_some hi (lt_of_lt_of_le h hrow)
  · rw [if_neg h, if_neg h]

theorem oneDVals_eq {d : List (List Rat)} {cols i : Nat}
    (hi : i < d.length) (hrow : cols ≤ (d.getD i []).length) :
    ∀ cm : List (String × Nat),
      oneDVals d cols i cm =
        some (cm.map (fun fc =>
          (fc.1, if fc.2 < cols then dAt d i fc.2 else 0))) := by
  intro cm
  induction cm with
  | nil => rfl
  | cons fc rest ih =>
      rcases fc with ⟨f, ci⟩
      simp [oneDVals, oneDVal_eq ci hi hrow, ih]

theorem oneDRows_complete {d : List (List Rat)} {cols : Nat}
    (cm : List (String × Nat)) (did : Int) :
    ∀ (eids : List Int) (i : Nat),
      i + eids.length ≤ d.length →
      (∀ row ∈ d, cols ≤ row.length) →
      ∃ rs, oneDRows d cols cm did eids i = some rs ∧
        ∀ r ∈ rs, ∀ fc ∈ cm, ¬ fc.2 < cols → (fc.1, (0 : Rat)) ∈ r.vals := by
  intro eids
  induction eids with
  | nil =>
      intro i _ _
      exact ⟨[], rfl, by intro r hr; simp at hr⟩
  | cons eid rest ih =>
      intro i hle hrow
      have hi : i < d.length := by simp at hle; omega
      have hcols : cols ≤ (d.getD i []).length := hrow _ (getD_mem d [] i hi)
      obtain ⟨rs', hrs, hz⟩ := ih (i + 1) (by simp at hle ⊢; omega) hrow
      refine ⟨⟨eid, cm.map (fun fc =>
          (fc.1, if fc.2 < cols then dAt d i fc.2 else 0)), did⟩ :: rs', ?_, ?_⟩
      · simp [oneDRows, oneDVals_eq hi hcols cm, hrs]
      · intro r hr fc hfc hcz
        rcases List.mem_cons.mp hr with rfl | hr
        · have : (fc.1, if fc.2 < cols then dAt d i fc.2 else (0 : Rat)) ∈
              cm.map (fun fc =>
                (fc.1, if fc.2 < cols then dAt d i fc.2 else 0)) :=
            List.mem_map_of_mem _ hfc
          rwa [if_neg hcz] at this
        · exact hz r hr fc hfc hcz

theorem oneDSteps_complete (cm : List (String × Nat)) (sc : Int)
    (res : SrcResult) (eids : List Int) (L : Nat)
    (hrect : ∀ step ∈ res.data, ∀ row ∈ step, row.length = L)
    (hcnt : ∀ step ∈ res.data, eids.length ≤ step.length) :
    ∀ (its : List Nat), (∀ it ∈ its, it < res.data.length) →
    ∀ dom, ∃ dom' bs, oneDSteps cm sc res eids its dom = some (dom', bs) ∧
      ∀ b ∈ bs, ∀ r ∈ b.2.1, ∀ fc ∈ cm, L ≤ fc.2 →
        (fc.1, (0 : Rat)) ∈ r.vals := by
  intro its
  induction its with
  | nil =>
      intro _ dom
      exact ⟨dom, [], rfl, by intro b hb; simp at hb⟩
  | cons it rest ih =>
      intro hits dom
      have hit : it < res.data.length := hits it (List.mem_cons_self it rest)
      have hstep : res.data.getD it [] ∈ res.data := getD_mem _ [] it hit
      rcases hg : get_id dom sc it res with ⟨did, dom1⟩
      by_cases hd : res.data.getD it [] = []
      · have heids : eids = [] := by
          have := hcnt _ hstep
          rw [hd] at this
          simpa using List.eq_nil_of_length_eq_zero (Nat.le_zero.mp this)
        obtain ⟨dom2, bs', hrec, hz⟩ :=
          ih (fun it' hit' => hits it' (List.mem_cons_of_mem _ hit')) dom1
        subst heids
        refine ⟨dom2, (did, [], 0) :: bs', ?_, ?_⟩
        · simp only [oneDSteps, hg, oneDRows, hrec]
          rfl
        · intro b hb
          rcases List.mem_cons.mp hb with rfl | hb
          · intro r hr; simp at hr
          · exact hz b hb
      · have hL : shape1 (res.data.getD it []) = L := by
          rcases he : res.data.getD it [] with _ | ⟨r0, d'⟩
          · exact absurd he hd
          · have : r0 ∈ res.data.getD it [] := by rw [he]; simp
            have := hrect _ hstep r0 this
            simp [shape1, he, this]
        have hrow : ∀ row ∈ res.data.getD it [],
            shape1 (res.data.getD it []) ≤ row.length := by
          intro row hrw
          rw [hL, hrect _ hstep row hrw]
        obtain ⟨rs, hrs, hz1⟩ := oneDRows_complete cm did eids 0
          (by simpa using hcnt _ hstep) hrow
        obtain ⟨dom2, bs', hrec, hz⟩ :=
          ih (fun it' hit' => hits it' (List.mem_cons_of_mem _ hit')) dom1
        refine ⟨dom2, (did, rs, eids.length) :: bs', ?_, ?_⟩
        · simp only [oneDSteps, hg, hrs, hrec]
          rfl
        · intro b hb
          rcases List.mem_cons.mp hb with rfl | hb
          · intro r hr fc hfc hLc
            exact hz1 r hr fc hfc (by rw [hL]; omega)
          · exact hz b hb

theorem oneDDict_complete (cm : List (String × Nat)) (L : Nat) :
    ∀ (dict : List (Int × SrcResult)),
      (∀ p ∈ dict, ∀ step ∈ p.2.data, ∀ row ∈ step, row.length = L) →
      (∀ p ∈ dict, ∀ eids, eidsOf p.2 = some eids →
        ∀ step ∈ p.2.data, eids.length ≤ step.length) →
      ∀ dom, ∃ dom' bs, oneDDict cm dict dom = some (dom', bs) ∧
        ∀ b ∈ bs, ∀ r ∈ b.2.1, ∀ fc ∈ cm, L ≤ fc.2 →
          (fc.1, (0 : Rat)) ∈ r.vals := by
  intro dict
  induction dict with
  | nil =>
      intro _ _ dom
      exact ⟨dom, [], rfl, by intro b hb; simp at hb⟩
  | cons p rest ih =>
      intro hrect hcnt dom
      rcases p with ⟨sc, res⟩
      rcases he : eidsOf res with - | eids
      · obtain ⟨dom', bs, hd, hz⟩ := ih
          (fun p hp => hrect p (List.mem_cons_of_mem _ hp))
          (fun p hp => hcnt p (List.mem_cons_of_mem _ hp)) dom
        exact ⟨dom', bs, by simp [oneDDict, he, hd], hz⟩
      · obtain ⟨dom1, bs1, h1, hz1⟩ := oneDSteps_complete cm sc res eids L
          (hrect (sc, res) (List.mem_cons_self _ _))
          (hcnt (sc, res) (List.mem_cons_self _ _) eids he)
          (List.range res.data.length) (fun it hit => List.mem_range.mp hit)
          dom
        obtain ⟨dom2, bs2, h2, hz2⟩ := ih
          (fun p hp => hrect p (List.mem_cons_of_mem _ hp))
          (fun p hp => hcnt p (List.mem_cons_of_mem _ hp)) dom1
        refine ⟨dom2, bs1 ++ bs2, by simp [oneDDict, he, h1, h2], ?_⟩
        intro b hb
        rcases List.mem_append.mp hb with hb | hb
        · exact hz1 b hb
        · exact hz2 b hb

end OpGui

/-- C3 (amended).  For the 1-D result tables (every dtype/column-map
instantiation of `_write_1d_result`) each index entry `(DOMAIN_ID, POSITION,
LENGTH)` describes a run of records that all belong to that one domain:
every record in rows `[POSITION, POSITION+LENGTH)` of the table carries a
DOMAIN_ID equal to the entry's.  (The original claim extended this to the
eigenvalue-summary table, which the code violates: see the
counterexample.) -/
theorem C3_entry_domain_runs :
    ∀ (cm : List (String × Nat)) (dict : List (Int × SrcResult))
      (dom dom' : Domains) (rows : List OpGui.Rec1D) (idx : List IndexEntry),
      OpGui.write_1d_result cm dict dom = some (dom', some (rows, idx)) →
      ∀ e ∈ idx, ∀ r ∈ (rows.drop e.POSITION).take e.LENGTH,
        r.DOMAIN_ID = e.DOMAIN_ID := by
  intro cm dict dom dom' rows idx h
  simp only [OpGui.write_1d_result] at h
  obtain ⟨⟨dom1, bs⟩, hd, h⟩ := Option.bind_eq_some.mp h
  obtain ⟨rfl, hsave⟩ : dom1 = dom' ∧
      save (bs.map (fun b => b.2.1))
        (mkIndex (bs.map (fun b => (b.1, b.2.2))) 0) = some (rows, idx) := by
    simpa using h
  unfold save at hsave
  by_cases he : (bs.map (fun b => b.2.1)).isEmpty
  · simp [he] at hsave
  · simp only [he, Bool.false_eq_true, ↓reduceIte, Option.some.injEq,
      Prod.mk.injEq] at hsave
    obtain ⟨hrows, hidx⟩ := hsave
    subst hrows hidx
    intro e he' r hr
    exact mkIndex_segment OpGui.Rec1D.DOMAIN_ID bs []
      (fun b hb => (OpGui.oneDDict_batches cm dict dom _ bs hd b hb).1)
      (fun b hb => (OpGui.oneDDict_batches cm dict dom _ bs hd b hb).2)
      e he' r hr

/-- C5 (amended).  For the 1-D record builders, a source whose per-step
component arrays have only `L` columns — fewer than the target layout's
column map expects — completes without error, and every record field whose
mapped column index lies beyond the source columns is left at its zero
default.  (The original claim extended this to the plate-center and solid
builders, which read fixed columns unconditionally; see the
counterexample.) -/
theorem C5_column_shortfall :
    ∀ (cm : List (String × Nat)) (L : Nat) (dict : List (Int × SrcResult))
      (dom : Domains),
      (∀ p ∈ dict, ∀ step ∈ p.2.data, ∀ row ∈ step, row.length = L) →
      (∀ p ∈ dict, ∀ eids, OpGui.eidsOf p.2 = some eids →
        ∀ step ∈ p.2.data, eids.length ≤ step.length) →
      ∃ dom' tbl, OpGui.write_1d_result cm dict dom = some (dom', tbl) ∧
        ∀ rows idx, tbl = some (rows, idx) →
          ∀ r ∈ rows, ∀ fc ∈ cm, L ≤ fc.2 → (fc.1, (0 : Rat)) ∈ r.vals := by
  intro cm L dict dom hrect hcnt
  obtain ⟨dom1, bs, hd, hz⟩ := OpGui.oneDDict_complete cm L dict hrect hcnt dom
  refine ⟨dom1, save (bs.map (fun b => b.2.1))
    (mkIndex (bs.map (fun b => (b.1, b.2.2))) 0), ?_, ?_⟩
  · simp [OpGui.write_1d_result, hd]
  · intro rows idx hsave r hr fc hfc hL
    unfold save at hsave
    by_cases he : (bs.map (fun b => b.2.1)).isEmpty
    · simp [he] at hsave
    · simp only [he, Bool.false_eq_true, ↓reduceIte, Option.some.injEq,
        Prod.mk.injEq] at hsave
      obtain ⟨hrows, -⟩ := hsave
      subst hrows
      obtain ⟨s, hs, hrs⟩ := List.mem_flatten.mp hr
      obtain ⟨b, hb, rfl⟩ := List.mem_map.mp hs
      exact hz b hb r hrs fc hfc hL

/-- C2 witness: the tiling property at the two concrete writer runs used to
discharge the hypotheses of the claim theorem. -/
theorem C2_witness :
    tiles ([⟨1, 5, 6, 0, 0, 0, 0, 1⟩, ⟨2, 7, 8, 0, 0, 0, 0, 1⟩] :
        List OpGui.NodalRec) [⟨1, 0, 2⟩] ∧
    tiles ([⟨11, [("A", 1), ("MSA", 2), ("T", 3), ("MST", 4)], 1⟩,
            ⟨12, [("A", 5), ("MSA", 6), ("T", 7), ("MST", 8)], 1⟩] :
        List OpGui.Rec1D) [⟨1, 0, 2⟩] :=
  ⟨C2_index_tiling.1 [(1, resW2)] emptyDomains domW2 _ _ (by decide),
   C2_index_tiling.2 OpGui.ROD_STRESS_COLS [(1, res1W2)] emptyDomains domW2
     _ _ (by decide)⟩

/-- C4.  On a source model with exactly 2 load cases × 3 time steps × 5
nodal entities of 6 components, the nodal writer produces a 30-record table,
the registry accumulates exactly 6 domain records, and the nodal index table
has exactly 6 entries of LENGTH 5 at POSITIONs 0, 5, 10, 15, 20, 25, in that
order (with domain ids 1..6). -/
theorem C4_nodal_scenario :
    (nodalRowsOf outC4).length = 30 ∧
    (domStateOf outC4).records.length = 6 ∧
    (nodalIdxOf outC4).map (fun e => (e.DOMAIN_ID, e.POSITION, e.LENGTH)) =
      [(1, 0, 5), (2, 5, 5), (3, 10, 5), (4, 15, 5), (5, 20, 5), (6, 25, 5)] ∧
    outC4 ≠ none := by decide

/-- C5 counterexample: on a 3-column source (the plate layout expects the 4
columns FD/X/Y/XY per surface) the plate-center builder does not complete:
the unguarded column-3 access fails, aborting the writer — refuting the
claim that every builder tolerates column shortfall. -/
theorem C5_counterexample :
    shape2 resPlateCex.data = 3 ∧
    OpGui.write_plate_stress [(1, resPlateCex)] emptyDomains = none := by
  decide

/-- C5 witness: the shortfall hypothesis holds at a concrete 2-column BAR
input and the claim theorem applies to it. -/
theorem C5_witness :
    (∀ p ∈ [((1 : Int), res5W)], ∀ step ∈ p.2.data, ∀ row ∈ step,
      (row : List Rat).length = 2) ∧
    (∃ dom' tbl, OpGui.write_1d_result OpGui.BAR_STRESS_COLS [(1, res5W)]
        emptyDomains = some (dom', tbl) ∧
      ∀ rows idx, tbl = some (rows, idx) →
        ∀ r ∈ rows, ∀ fc ∈ OpGui.BAR_STRESS_COLS, 2 ≤ fc.2 →
          (fc.1, (0 : Rat)) ∈ r.vals) :=
  ⟨by decide, C5_column_shortfall OpGui.BAR_STRESS_COLS 2 [(1, res5W)]
    emptyDomains (by decide) (by decide)⟩

namespace OpGui

/-! C7: empty categories produce no table and no index. -/
theorem oneDDict_skip (cm : List (String × Nat)) :
    ∀ (dict : List (Int × SrcResult)) (dom : Domains),
      (∀ p ∈ dict, eidsOf p.2 = none) →
      oneDDict cm dict dom = some (dom, []) := by
  intro dict
  induction dict with
  | nil => intro dom _; rfl
  | cons p rest ih =>
      intro dom h
      rcases p with ⟨sc, res⟩
      have hp : eidsOf res = none := h (sc, res) (List.mem_cons_self _ _)
      simp only [oneDDict, hp]
      exact ih dom (fun p hp' => h p (List.mem_cons_of_mem _ hp'))

end OpGui

/-- C7.  A category with zero load cases produces no table and no INDEX
mirror (`none` outcome of `_save`), and likewise when every subcase is
skipped so that zero record batches are emitted (1-D writer with no element
ids): the registry is also left untouched. -/
theorem C7_empty_category :
    (∀ dom : Domains, OpGui.write_nodal [] dom = some (dom, none)) ∧
    (∀ (cm : List (String × Nat)) (dict : List (Int × SrcResult))
      (dom : Domains),
      (∀ p ∈ dict, OpGui.eidsOf p.2 = none) →
      OpGui.write_1d_result cm dict dom = some (dom, none)) := by
  constructor
  · intro dom
    rfl
  · intro cm dict dom h
    simp only [OpGui.write_1d_result, OpGui.oneDDict_skip cm dict dom h]
    rfl

/-- C7 witness: concrete empty-category and all-skipped runs. -/
theorem C7_witness :
    OpGui.write_nodal [] emptyDomains = some (emptyDomains, none) ∧
    OpGui.write_1d_result OpGui.ROD_STRESS_COLS [(1, resSkipW)] emptyDomains =
      some (emptyDomains, none) :=
  ⟨C7_empty_category.1 emptyDomains,
   C7_empty_category.2 OpGui.ROD_STRESS_COLS [(1, resSkipW)] emptyDomains
     (by decide)⟩

theorem analysisFromSol_eq_spec (res : SrcResult) :
    analysisFromSol res = specSolKind (solOf res) := by
  unfold analysisFromSol specSolKind
  cases h : solOf res with
  | none => rfl
  | some s =>
      by_cases hs : s = 0
      · subst hs
        have h0 : lookupTbl SOL_ANALYSIS 0 = none := by decide
        simp [h0]
      · simp [hs]

/-- C6 (amended).  On the first `get_id` call for a new key, the GUI
registry's stored ANALYSIS follows the claimed derivation — explicit
non-zero analysis code, else solution-sequence table lookup, else static
(1).  The msc_h5_writer registry does not: it copies the analysis-code
attribute verbatim whenever present (even zero) and otherwise leaves
ANALYSIS at 0, with no table lookup and no static default. -/
theorem C6_analysis_derivation :
    (∀ (dom : Domains) (sc : Int) (it : Nat) (res : SrcResult),
      lookupKey dom.map (sc, it) = none →
      ((OpGui.get_id dom sc it res).2.records.getLast?.map DomainRec.ANALYSIS)
        = some (specAnalysisKind res.analysis_code (solOf res))) ∧
    (∀ (dom : Domains) (sc : Int) (it : Nat) (res : SrcResult),
      lookupKey dom.map (sc, it) = none →
      ((MscW.get_id dom sc it res).2.records.getLast?.map DomainRec.ANALYSIS)
        = some (res.analysis_code.getD 0)) := by
  constructor
  · intro dom sc it res hfresh
    simp only [OpGui.get_id, hfresh, List.getLast?_concat, Option.map_some]
    cases hac : res.analysis_code with
    | none => simp [specAnalysisKind, analysisFromSol_eq_spec]
    | some a =>
        by_cases ha : a = 0
        · subst ha
          simp [specAnalysisKind, analysisFromSol_eq_spec]
        · simp [specAnalysisKind, ha]
  · intro dom sc it res hfresh
    simp only [MscW.get_id, hfresh, List.getLast?_concat, Option.map_some]
    cases hac : res.analysis_code <;> simp

/-- C6 counterexample: the msc_h5_writer registry stores ANALYSIS = 0 for a
fresh key of `resC6`, but the claimed derivation (solution sequence 101 in
the fixed table → static, code 1) requires 1 — so the claim fails for that
writer module. -/
theorem C6_counterexample :
    ((MscW.get_id emptyDomains 1 0 resC6).2.records.getLast?.map
      DomainRec.ANALYSIS) = some 0 ∧
    specAnalysisKind resC6.analysis_code (solOf resC6) = 1 ∧
    ¬ (((MscW.get_id emptyDomains 1 0 resC6).2.records.getLast?.map
        DomainRec.ANALYSIS) =
      some (specAnalysisKind resC6.analysis_code (solOf resC6))) := by decide

/-- C6 witness: both conjuncts of the amended claim applied at a concrete
fresh key. -/
theorem C6_witness :
    lookupKey emptyDomains.map (1, 0) = none ∧
    ((OpGui.get_id emptyDomains 1 0 resC6).2.records.getLast?.map
      DomainRec.ANALYSIS = some (specAnalysisKind resC6.analysis_code
        (solOf resC6))) ∧
    ((MscW.get_id emptyDomains 1 0 resC6).2.records.getLast?.map
      DomainRec.ANALYSIS = some (resC6.analysis_code.getD 0)) :=
  ⟨by decide, C6_analysis_derivation.1 emptyDomains 1 0 resC6 (by decide),
   C6_analysis_derivation.2 emptyDomains 1 0 resC6 (by decide)⟩

/-- C3 witness: the run-of-one-domain property applied at a concrete 1-D
writer run, instantiated at its single index entry and first record. -/
theorem C3_witness :
    (⟨11, [("A", 1), ("MSA", 2), ("T", 3), ("MST", 4)], 1⟩ :
      OpGui.Rec1D).DOMAIN_ID = (⟨1, 0, 2⟩ : IndexEntry).DOMAIN_ID :=
  C3_entry_domain_runs OpGui.ROD_STRESS_COLS [(1, res1W2)] emptyDomains domW2
    [⟨11, [("A", 1), ("MSA", 2), ("T", 3), ("MST", 4)], 1⟩,
     ⟨12, [("A", 5), ("MSA", 6), ("T", 7), ("MST", 8)], 1⟩]
    [⟨1, 0, 2⟩] (by decide) ⟨1, 0, 2⟩ (by decide)
    ⟨11, [("A", 1), ("MSA", 2), ("T", 3), ("MST", 4)], 1⟩ (by decide)

/-- C3 counterexample: for the eigenvalue-summary table the writer appends
the index entry `(1, 0, 2)`, yet the record at row 1 — inside that entry's
range `[0, 2)` — carries DOMAIN_ID 2 (each mode index gets its own domain),
so the entry's run is NOT all of the entry's domain, refuting the claim for
this table. -/
theorem C3_counterexample :
    eigIdxOf eigOutCex = [⟨1, 0, 2⟩] ∧
    ((eigRowsOf eigOutCex).getD 1 default).DOMAIN_ID = 2 ∧
    ¬ (((eigRowsOf eigOutCex).getD 1 default).DOMAIN_ID =
        ((eigIdxOf eigOutCex).getD 0 default).DOMAIN_ID) := by
  have hIdx : eigIdxOf eigOutCex = [⟨1, 0, 2⟩] := rfl
  have hRow : ((eigRowsOf eigOutCex).getD 1 default).DOMAIN_ID = 2 := rfl
  refine ⟨hIdx, hRow, ?_⟩
  intro h
  rw [hRow, hIdx] at h
  exact absurd h (by decide)

theorem sqrt_400 : Real.sqrt 400 = 20 := by
  rw [show (400 : Real) = 20 ^ 2 by norm_num]
  exact Real.sqrt_sq (by norm_num)

theorem sqrt_100 : Real.sqrt 100 = 10 := by
  rw [show (100 : Real) = 10 ^ 2 by norm_num]
  exact Real.sqrt_sq (by norm_num)

theorem eigOmega_neg400 : OpGui.eigOmega ((-400 : Rat) : Real) = -20 := by
  have hc : ((-400 : Rat) : Real) = -400 := by norm_num
  rw [hc]
  unfold OpGui.eigOmega
  rw [if_neg (by norm_num)]
  rw [show |(-400 : Real)| = 400 by norm_num, sqrt_400]

theorem eigOmega_100 : OpGui.eigOmega ((100 : Rat) : Real) = 10 := by
  have hc : ((100 : Rat) : Real) = 100 := by norm_num
  rw [hc]
  unfold OpGui.eigOmega
  rw [if_pos (by norm_num)]
  rw [show |(100 : Real)| = 100 by norm_num, sqrt_100]

/-- C9.  On eigenvalues −400 and 100 the summary writer derives OMEGA as the
signed square root (−20 and +10: a negative eigenvalue yields a negative
angular frequency) and FREQ as |OMEGA| / (2π) (20/(2π) for the first mode),
while MASS and STIFF stay at 0 (the source carries no modal participation
data — the writer assigns 0.0). -/
theorem C9_eigenvalue_summary :
    ((eigRowsOf eigOutC9).getD 0 default).OMEGA = -20 ∧
    ((eigRowsOf eigOutC9).getD 0 default).FREQ = 20 / (2 * Real.pi) ∧
    ((eigRowsOf eigOutC9).getD 1 default).OMEGA = 10 ∧
    ((eigRowsOf eigOutC9).getD 0 default).EIGEN = -400 ∧
    ((eigRowsOf eigOutC9).getD 0 default).MASS = 0 ∧
    ((eigRowsOf eigOutC9).getD 0 default).STIFF = 0 := by
  have h0 : ((eigRowsOf eigOutC9).getD 0 default).OMEGA =
      OpGui.eigOmega ((-400 : Rat) : Real) := rfl
  have h1 : ((eigRowsOf eigOutC9).getD 1 default).OMEGA =
      OpGui.eigOmega ((100 : Rat) : Real) := rfl
  have hf : ((eigRowsOf eigOutC9).getD 0 default).FREQ =
      OpGui.eigFreq (OpGui.eigOmega ((-400 : Rat) : Real)) := rfl
  refine ⟨?_, ?_, ?_, ?_, rfl, rfl⟩
  · rw [h0, eigOmega_neg400]
  · rw [hf, eigOmega_neg400]
    unfold OpGui.eigFreq
    rw [show |(-20 : Real)| = 20 by norm_num]
  · rw [h1, eigOmega_100]
  · show ((-400 : Rat) : Real) = -400
    norm_num

namespace OpGui

theorem quadCnDict_skip :
    ∀ (dict : List (Int × SrcResult)) (dom : Domains),
      hasCorner dict = false →
      (∀ p ∈ dict, (p.2.element_node).isSome) →
      quadCnDict dict dom = some (dom, []) := by
  intro dict
  induction dict with
  | nil => intro dom _ _; rfl
  | cons p rest ih =>
      intro dom hc hs
      rcases p with ⟨sc, res⟩
      rw [hasCorner, List.any_cons, Bool.or_eq_false_iff] at hc
      obtain ⟨hc1, hc2⟩ := hc
      have hn : nnodesOf res ≤ 1 := by
        rcases Nat.lt_or_ge 1 (nnodesOf res) with h | h
        · exact absurd hc1 (by simp [h])
        · exact h
      obtain ⟨en, hen⟩ := Option.isSome_iff_exists.mp
        (hs (sc, res) (List.mem_cons_self _ _))
      simp only [quadCnDict]
      rw [hen]
      dsimp only
      rw [if_pos hn]
      exact ih dom hc2 (fun p hp => hs p (List.mem_cons_of_mem _ hp))

end OpGui

set_option maxHeartbeats 4000000 in
set_option maxRecDepth 4000 in
/-- C8 (amended).  The corner writer runs only for subcases declaring more
than one sample point per element (a model with none leaves no table and no
index, and an untouched registry), and for a 5-sample-point element it emits
exactly 2 rows per sample point per step — one per surface, 10 rows per
element — each carrying the grid identifier of its sample point.  The short
fixed-string TERM tag, however, encodes the surface ("Z1" top / "Z2"
bottom), identical for the center and the corner points of one surface —
not the center-vs-corner identity the original claim states (see the
counterexample). -/
theorem C8_corner_writer :
    (∀ (dict : List (Int × SrcResult)) (dom : Domains),
      OpGui.hasCorner dict = false →
      (∀ p ∈ dict, (p.2.element_node).isSome) →
      OpGui.write_quad_cn_stress dict dom = some (dom, none)) ∧
    (∀ eid g1 g2 g3 g4 : Int,
      OpGui.write_quad_cn_stress [(1, resCn eid g1 g2 g3 g4)] emptyDomains =
        some (domW2, some (
          [⟨eid, "Z1", 0, 10, 11, 12, 13, 0, 0, 0, 0, 1⟩,
           ⟨eid, "Z2", 0, 0, 0, 0, 0, 20, 21, 22, 23, 1⟩,
           ⟨eid, "Z1", g1, 30, 31, 32, 33, 0, 0, 0, 0, 1⟩,
           ⟨eid, "Z2", g1, 0, 0, 0, 0, 40, 41, 42, 43, 1⟩,
           ⟨eid, "Z1", g2, 50, 51, 52, 53, 0, 0, 0, 0, 1⟩,
           ⟨eid, "Z2", g2, 0, 0, 0, 0, 60, 61, 62, 63, 1⟩,
           ⟨eid, "Z1", g3, 70, 71, 72, 73, 0, 0, 0, 0, 1⟩,
           ⟨eid, "Z2", g3, 0, 0, 0, 0, 80, 81, 82, 83, 1⟩,
           ⟨eid, "Z1", g4, 90, 91, 92, 93, 0, 0, 0, 0, 1⟩,
           ⟨eid, "Z2", g4, 0, 0, 0, 0, 100, 101, 102, 103, 1⟩],
          [⟨1, 0, 10⟩]))) := by
  constructor
  · intro dict dom hc hs
    simp only [OpGui.write_quad_cn_stress, OpGui.quadCnDict_skip dict dom hc hs]
    rfl
  · intro eid g1 g2 g3 g4
    with_unfolding_all rfl

/-- C8 counterexample: row 0 (the center point's top-surface row, grid tag
0) and row 2 (the first corner's top-surface row, grid 100) carry the same
TERM tag "Z1" although one is a center row and the other a corner row — the
tag distinguishes surfaces, so it cannot encode whether the point is the
center or a corner, refuting that part of the claim. -/
theorem C8_counterexample :
    ((quadRowsOf outC8).getD 0 default).TERM = "Z1" ∧
    ((quadRowsOf outC8).getD 2 default).TERM = "Z1" ∧
    ((quadRowsOf outC8).getD 0 default).GRID = 0 ∧
    ((quadRowsOf outC8).getD 2 default).GRID = 100 ∧
    (quadRowsOf outC8).length = 10 := by decide

/-- C8 witness: the skip conjunct of the claim theorem applied to a concrete
center-only model. -/
theorem C8_witness :
    OpGui.hasCorner [(1, resNoCn)] = false ∧
    OpGui.write_quad_cn_stress [(1, resNoCn)] emptyDomains =
      some (emptyDomains, none) :=
  ⟨by decide, C8_corner_writer.1 [(1, resNoCn)] emptyDomains (by decide)
    (by decide)⟩

theorem get?_map_eq {α β : Type} (f : α → β) (l : List α) (i : Nat) :
    (l.map f).get? i = (l.get? i).map f := by
  simp [List.get?_eq_getElem?]

theorem getD_map_eq {α β : Type} (g : α → β) (l : List α) (i : Nat)
    (dA : α) (dB : β) (hd : g dA = dB) :
    (l.map g).getD i dB = g (l.getD i dA) := by
  induction l generalizing i with
  | nil => cases i <;> simp [List.getD, hd]
  | cons a l ih =>
      cases i with
      | zero => simp
      | succ i =>
          rw [List.map_cons, List.getD_cons_succ, List.getD_cons_succ]
          exact ih i

theorem at2_take6 (step : List (List Rat)) (i c : Nat) (hc : c < 6) :
    at2 (step.map (fun row => row.take 6)) i c = at2 step i c := by
  unfold at2
  rw [get?_map_eq]
  cases h : step.get? i with
  | none => rfl
  | some row =>
      show (row.take 6).get? c = row.get? c
      simp [List.get?_eq_getElem?, List.getElem?_take, hc]

namespace OpGui

theorem nodalField_trunc {ncols : Nat} (hn : ncols ≤ 6)
    (step : List (List Rat)) (i c : Nat) :
    nodalField (step.map (fun row => row.take 6)) ncols i c =
      nodalField step ncols i c := by
  unfold nodalField
  by_cases h : c < ncols
  · rw [if_pos h, if_pos h]
    exact at2_take6 step i c (lt_of_lt_of_le h hn)
  · rw [if_neg h, if_neg h]

theorem nodalRow_trunc {ncols : Nat} (hn : ncols ≤ 6)
    (step : List (List Rat)) (nid : Int) (i : Nat) (did : Int) :
    nodalRow (step.map (fun row => row.take 6)) ncols nid i did =
      nodalRow step ncols nid i did := by
  simp only [nodalRow, nodalField_trunc hn]

theorem nodalRows_trunc {ncols : Nat} (hn : ncols ≤ 6)
    (step : List (List Rat)) (did : Int) :
    ∀ (nids : List Int) (i : Nat),
      nodalRows (step.map (fun row => row.take 6)) ncols did nids i =
        nodalRows step ncols did nids i := by
  intro nids
  induction nids with
  | nil => intro i; rfl
  | cons nid rest ih =>
      intro i
      simp only [nodalRows, nodalRow_trunc hn, ih]

theorem get_id_trunc (dom : Domains) (sc : Int) (it : Nat) (res : SrcResult) :
    get_id dom sc it (trunc6 res) = get_id dom sc it res := rfl

theorem nodalSteps_trunc {ncols : Nat} (hn : ncols ≤ 6) (sc : Int)
    (res : SrcResult) (nids : List Int) :
    ∀ (its : List Nat) (dom : Domains),
      nodalSteps sc (trunc6 res) nids ncols its dom =
        nodalSteps sc res nids ncols its dom := by
  intro its
  induction its with
  | nil => intro dom; rfl
  | cons it rest ih =>
      intro dom
      simp only [nodalSteps, get_id_trunc]
      have hdata : (trunc6 res).data.getD it [] =
          (res.data.getD it []).map (fun row => row.take 6) :=
        getD_map_eq _ res.data it [] [] rfl
      rw [hdata, nodalRows_trunc hn]
      simp only [ih]

theorem shape2_trunc (res : SrcResult) :
    shape2 (trunc6 res).data = min 6 (shape2 res.data) := by
  unfold trunc6 shape2
  generalize res.data = l
  rcases l with - | ⟨s, ds⟩
  · rfl
  · rcases s with - | ⟨r, rs⟩
    · rfl
    · simp [List.length_take]

theorem nodalDict_trunc :
    ∀ (dict : List (Int × SrcResult)) (dom : Domains),
      nodalDict (truncDict dict) dom = nodalDict dict dom := by
  intro dict
  induction dict with
  | nil => intro dom; rfl
  | cons p rest ih =>
      intro dom
      rcases p with ⟨sc, res⟩
      have hncols : min (shape2 (trunc6 res).data) 6 =
          min (shape2 res.data) 6 := by
        rw [shape2_trunc]
        omega
      have hgrid : (trunc6 res).node_gridtype = res.node_gridtype := rfl
      have hlen : (trunc6 res).data.length = res.data.length := by
        simp [trunc6]
      simp only [truncDict, List.map_cons, nodalDict]
      rw [hgrid, hlen, hncols,
        nodalSteps_trunc (Nat.min_le_right (shape2 res.data) 6)]
      have ih' : ∀ dom1 : Domains,
          nodalDict (List.map (fun p => (p.1, trunc6 p.2)) rest) dom1 =
            nodalDict rest dom1 := fun dom1 => ih dom1
      simp only [ih']

end OpGui

/-- C10.  The nodal writer copies at most the first 6 component columns:
truncating every data row to its first 6 components changes nothing in its
output (columns beyond the sixth are silently ignored), the column count
used is `min(shape2, 6) = 6` whenever the source has 6 or more components,
and each produced record is exactly the fixed 8-field layout
`⟨ID, X, Y, Z, RX, RY, RZ, DOMAIN_ID⟩` (the `NodalRec` type) holding
columns 0..5 of the entity's row. -/
theorem C10_nodal_first_six :
    (∀ (dict : List (Int × SrcResult)) (dom : Domains),
      OpGui.write_nodal (truncDict dict) dom = OpGui.write_nodal dict dom) ∧
    (∀ data : List (List (List Rat)), 6 ≤ shape2 data →
      min (shape2 data) 6 = 6) ∧
    (∀ (d : List (List Rat)) (nid : Int) (i : Nat) (did : Int),
      i < d.length → 6 ≤ (d.getD i []).length →
      OpGui.nodalRow d 6 nid i did =
        some ⟨nid, dAt d i 0, dAt d i 1, dAt d i 2, dAt d i 3, dAt d i 4,
          dAt d i 5, did⟩) := by
  refine ⟨?_, ?_, ?_⟩
  · intro dict dom
    unfold OpGui.write_nodal
    rw [OpGui.nodalDict_trunc]
  · intro data h
    omega
  · intro d nid i did hi h6
    have hf : ∀ c, c < 6 → OpGui.nodalField d 6 i c = some (dAt d i c) := by
      intro c hc
      unfold OpGui.nodalField
      rw [if_pos hc]
      exact at2_eq_some hi (lt_of_lt_of_le hc h6)
    simp only [OpGui.nodalRow, hf 0 (by norm_num), hf 1 (by norm_num),
      hf 2 (by norm_num), hf 3 (by norm_num), hf 4 (by norm_num),
      hf 5 (by norm_num)]
    rfl

/-- C10 witness: the claim theorem applied at a 7-column source — the
record keeps columns 0..5 and ignores the seventh column. -/
theorem C10_witness :
    OpGui.write_nodal (truncDict [(1, res10W)]) emptyDomains =
      OpGui.write_nodal [(1, res10W)] emptyDomains ∧
    min (shape2 res10W.data) 6 = 6 ∧
    OpGui.nodalRow [[1, 2, 3, 4, 5, 6, 7]] 6 99 0 5 =
      some ⟨99, 1, 2, 3, 4, 5, 6, 5⟩ :=
  ⟨C10_nodal_first_six.1 [(1, res10W)] emptyDomains,
   C10_nodal_first_six.2.1 res10W.data (by decide),
   C10_nodal_first_six.2.2 [[1, 2, 3, 4, 5, 6, 7]] 99 0 5 (by decide)
     (by decide)⟩

end LoadExt
